import Mathlib

/-
Formal model of the standup evaluation pipeline and aggregation engine of the
daily-sync-monitor repository (FastAPI + SQLAlchemy service).

Modelling conventions used throughout this file:
  - Python dict payloads coming from the Microsoft Graph API are modelled by
    the inductive `RawVal` (strings, integers and nested string-keyed
    dictionaries, which is the fragment the code inspects); a dictionary is an
    association list in insertion order, mirroring Python dict semantics.
  - Dates and times of day are modelled as integers (order-isomorphic to the
    real types; the code only ever compares them and copies them around).
  - Python floats are modelled as exact rationals.  The float operations the
    code performs (comparisons against 3.0, divisions by small counts,
    round(x, 2) with round-half-to-even) are exact at the granularity the
    claims discuss.
  - An `AsyncSession` database is modelled as an explicit `DB` value that is
    threaded through the orchestrator; SQLAlchemy `scalar_one_or_none` is
    modelled faithfully, including its failure on more than one matching row.
  - Provider clients are modelled as oracle functions returning
    `Except String _`; a raised `GraphClientError` is an `Except.error`.
-/

/-- JSON-like value stored in the raw debug payloads (the fragment of JSON the
code inspects: strings, integers, and string-keyed nested dictionaries). -/
inductive RawVal where
  | str (s : String)
  | num (n : Int)
  | dict (entries : List (String × RawVal))

/-- A raw payload dictionary: association list in insertion order, like a
Python dict. -/
abbrev RawDict := List (String × RawVal)

/-- Python `"k" in d` membership test on a dict. -/
def RawDict.hasKey (d : RawDict) (k : String) : Bool :=
  d.any (fun kv => kv.1 == k)

/-- Python `d[k] = v`: replace the value in place if the key exists (keeping
insertion order), else append the new binding at the end. -/
def RawDict.insert (d : RawDict) (k : String) (v : RawVal) : RawDict :=
  if d.hasKey k then d.map (fun kv => if kv.1 == k then (k, v) else kv)
  else d ++ [(k, v)]

mutual

/-- Model of `json.dumps` on a `RawVal` (default separators; string escaping
is not modelled since the code never inspects the serialized text). -/
def RawVal.serialize : RawVal → String
  | .str s => "\x22" ++ s ++ "\x22"
  | .num n => toString n
  | .dict d => "\x7b" ++ RawVal.serializeEntries d ++ "\x7d"

/-- Serialization of the bindings of a dict, comma separated. -/
def RawVal.serializeEntries : List (String × RawVal) → String
  | [] => ""
  | (k, v) :: rest =>
    "\x22" ++ k ++ "\x22: " ++ RawVal.serialize v ++
      (if rest.isEmpty then "" else ", ") ++ RawVal.serializeEntries rest

end

/-- app/schemas/meeting.py MeetingOccurrence: a single resolved occurrence of
a recurring meeting for a specific business date. -/
structure MeetingOccurrence where
  meeting_id : String
  start_time_utc : Option Int := none
  end_time_utc : Option Int := none
  is_cancelled : Bool := false
  raw : Option RawDict := none

/-- app/schemas/attendance.py AttendanceSummary: normalized view of the
attendance data of a meeting. -/
structure AttendanceSummary where
  meeting_id : String
  non_organizer_count : Int
  duration_minutes : ℚ
  has_data : Bool
  raw : Option RawDict := none

/-- app/schemas/meeting_evaluation.py MeetingSnapshot: normalized snapshot of
a single meeting occurrence (cancellation, attendance metrics, raw payload). -/
structure MeetingSnapshot where
  cancelled : Bool
  non_organizer_count : Int
  duration_minutes : ℚ
  raw : Option RawDict := none

/-- app/schemas/daily_standup_log.py DailyStandupStatus: the five possible
outcomes of a daily standup check. -/
inductive DailyStandupStatus where
  | HAPPENED
  | MISSED
  | CANCELLED
  | NO_DATA
  | ERROR
  deriving DecidableEq, Repr

/-- The string value of each enum member (`status_enum.value` in Python). -/
def DailyStandupStatus.value : DailyStandupStatus → String
  | .HAPPENED => "HAPPENED"
  | .MISSED => "MISSED"
  | .CANCELLED => "CANCELLED"
  | .NO_DATA => "NO_DATA"
  | .ERROR => "ERROR"

/-- Pydantic validation of a stored status string into the enum
(`DailyStandupStatus(s)` in Python): `none` models the raised ValueError. -/
def parseStatus (s : String) : Option DailyStandupStatus :=
  if s = "HAPPENED" then some .HAPPENED
  else if s = "MISSED" then some .MISSED
  else if s = "CANCELLED" then some .CANCELLED
  else if s = "NO_DATA" then some .NO_DATA
  else if s = "ERROR" then some .ERROR
  else none

/-- app/services/meeting_normalizer.py MeetingNormalizer.build_snapshot:
combines meeting occurrence and attendance information into a single
normalized MeetingSnapshot. -/
def MeetingNormalizer.build_snapshot (occurrence : Option MeetingOccurrence)
    (attendance : Option AttendanceSummary) : MeetingSnapshot :=
  let cancelled := false
  let raw : RawDict := []
  let cancelled_raw : Bool × RawDict :=
    match occurrence with
    | none => (cancelled, raw)
    | some occ =>
      let cancelled := occ.is_cancelled
      let raw :=
        match occ.raw with
        | some r => raw.insert "occurrence" (RawVal.dict r)
        | none => raw
      let raw :=
        match attendance with
        | some att =>
          match att.raw with
          | some r => raw.insert "attendance" (RawVal.dict r)
          | none => raw
        | none => raw
      (cancelled, raw)
  let cancelled := cancelled_raw.1
  let raw := cancelled_raw.2
  let counts_raw : (Int × ℚ) × RawDict :=
    match attendance with
    | some att =>
      if att.has_data then
        let raw :=
          match att.raw with
          | some r => raw.insert "attendance" (RawVal.dict r)
          | none => raw
        ((att.non_organizer_count, att.duration_minutes), raw)
      else ((0, 0), raw)
    | none => ((0, 0), raw)
  let non_org_count := counts_raw.1.1
  let duration_minutes := counts_raw.1.2
  let raw := counts_raw.2
  let raw_output : Option RawDict := if raw.isEmpty then none else some raw
  { cancelled := cancelled,
    non_organizer_count := non_org_count,
    duration_minutes := duration_minutes,
    raw := raw_output }

/-- app/services/standup_evaluator.py: the error-marker scan of
StandupEvaluator.evaluate.  True iff the dict has an "error" key at top level
or, failing that, some direct value is itself a dict with an "error" key. -/
def errorMarkerScan (raw : RawDict) : Bool :=
  if raw.hasKey "error" then true
  else raw.any (fun kv =>
    match kv.2 with
    | RawVal.dict d => RawDict.hasKey d "error"
    | _ => false)

/-- app/services/standup_evaluator.py StandupEvaluator.evaluate: applies the
business rules on a normalized MeetingSnapshot (or its absence) to derive the
final standup status. -/
def StandupEvaluator.evaluate : Option MeetingSnapshot → DailyStandupStatus
  | none => .NO_DATA
  | some snapshot =>
    let raw := snapshot.raw.getD []
    if errorMarkerScan raw then .ERROR
    else if snapshot.cancelled then .CANCELLED
    else if snapshot.non_organizer_count < 2 then .MISSED
    else if snapshot.duration_minutes ≤ 3 then .MISSED
    else .HAPPENED

/-- Modelled from the spec: the SQLAlchemy Project model (app/models/project.py
is not part of the sources; section 3 of the spec describes it as: identity
(numeric id), unique short key, display name, external meeting identifier,
scheduled local time-of-day, active flag).  The pydantic schema in
app/schemas/project.py confirms the field names. -/
structure Project where
  id : Int
  project_key : String
  name : String
  meeting_id : String
  standup_time : Int
  is_active : Bool
  deriving DecidableEq, Repr

/-- app/models/daily_standup_log.py DailyStandupLog: outcome of the daily
standup compliance check for a single project on a specific date.  `id` is the
autoincremented surrogate key; `status` is stored as a string. -/
structure DailyStandupLog where
  id : Int
  project_id : Int
  standup_date : Int
  scheduled_time : Int
  status : String
  attendance_count : Int
  duration_minutes : ℚ
  raw_metadata : Option String
  deriving DecidableEq, Repr

/-- The persistent state visible to the core: the projects table, the
daily_standup_logs table, and the next autoincrement value for log ids. -/
structure DB where
  projects : List Project
  logs : List DailyStandupLog
  next_log_id : Int
  deriving DecidableEq, Repr

/-- Row predicate for the (project_id, standup_date) lookup key. -/
def logKey (pid d : Int) (l : DailyStandupLog) : Bool :=
  l.project_id == pid && l.standup_date == d

/-- Number of log rows carrying a given (project_id, standup_date) key. -/
def keyCount (logs : List DailyStandupLog) (pid d : Int) : Nat :=
  logs.countP (logKey pid d)

/-- The uniqueness invariant of the log table: at most one row per
(project_id, standup_date) pair. -/
def UniqueLogs (logs : List DailyStandupLog) : Prop :=
  ∀ pid d, keyCount logs pid d ≤ 1

/-- SQLAlchemy scalar_one_or_none on a result list: none for no row, the row
if unique, and a MultipleResultsFound failure otherwise. -/
def scalarOneOrNone {α : Type} (rows : List α) : Except String (Option α) :=
  match rows with
  | [] => .ok none
  | [x] => .ok (some x)
  | _ => .error "MultipleResultsFound"

/-- The provider side of app/services/daily_check.py: whether all four Graph
credential settings are present, whether get_graph_client succeeds, and the
two resolver calls as oracles (an Except.error models a GraphClientError). -/
structure ProviderEnv where
  credentials_present : Bool
  client_ok : Bool
  resolveOccurrence : String → Int → Except String MeetingOccurrence
  resolveAttendance : String → Except String AttendanceSummary

/-- Both resolvers are non-None exactly when the credentials are configured
and the Graph client construction did not raise. -/
def ProviderEnv.usable (env : ProviderEnv) : Bool :=
  env.credentials_present && env.client_ok

/-- The per-project snapshot acquisition of run_daily_standup_check: when the
resolvers are available, resolve the occurrence and then the attendance; any
GraphClientError leaves the snapshot as None for this project only. -/
def resolveSnapshot (env : ProviderEnv) (p : Project) (standup_date : Int) :
    Option MeetingSnapshot :=
  if env.usable then
    match env.resolveOccurrence p.meeting_id standup_date with
    | .error _ => none
    | .ok occurrence =>
      match env.resolveAttendance p.meeting_id with
      | .error _ => none
      | .ok attendance =>
        some (MeetingNormalizer.build_snapshot (some occurrence) (some attendance))
  else none

/-- The status string persisted for a project in this run
(`status_enum.value`). -/
def statusValueFor (env : ProviderEnv) (standup_date : Int) (p : Project) : String :=
  (StandupEvaluator.evaluate (resolveSnapshot env p standup_date)).value

/-- The attendance_count persisted for a project in this run. -/
def attendanceCountFor (env : ProviderEnv) (standup_date : Int) (p : Project) : Int :=
  match resolveSnapshot env p standup_date with
  | some s => s.non_organizer_count
  | none => 0

/-- The duration_minutes persisted for a project in this run. -/
def durationMinutesFor (env : ProviderEnv) (standup_date : Int) (p : Project) : ℚ :=
  match resolveSnapshot env p standup_date with
  | some s => s.duration_minutes
  | none => 0

/-- The raw_metadata persisted for a project in this run
(`json.dumps(snapshot.raw) if snapshot and snapshot.raw else None`; an empty
dict is falsy in Python, hence the isEmpty test). -/
def rawMetadataFor (env : ProviderEnv) (standup_date : Int) (p : Project) : Option String :=
  match resolveSnapshot env p standup_date with
  | some s =>
    match s.raw with
    | some r => if r.isEmpty then none else some (RawVal.serialize (RawVal.dict r))
    | none => none
  | none => none

/-- One iteration of the per-project loop of run_daily_standup_check: evaluate
the project, then upsert the (project_id, standup_date) log row.  Returns the
updated log table, the next autoincrement value, and the session object that
was appended to log_entries. -/
def runStep (env : ProviderEnv) (standup_date : Int)
    (logs : List DailyStandupLog) (nid : Int) (p : Project) :
    Except String (List DailyStandupLog × Int × DailyStandupLog) :=
  match scalarOneOrNone (logs.filter (logKey p.id standup_date)) with
  | .error e => .error e
  | .ok none =>
    let newLog : DailyStandupLog :=
      { id := nid,
        project_id := p.id,
        standup_date := standup_date,
        scheduled_time := p.standup_time,
        status := statusValueFor env standup_date p,
        attendance_count := attendanceCountFor env standup_date p,
        duration_minutes := durationMinutesFor env standup_date p,
        raw_metadata := rawMetadataFor env standup_date p }
    .ok (logs ++ [newLog], nid + 1, newLog)
  | .ok (some l) =>
    let updated : DailyStandupLog :=
      { l with
        status := statusValueFor env standup_date p,
        attendance_count := attendanceCountFor env standup_date p,
        duration_minutes := durationMinutesFor env standup_date p,
        raw_metadata := rawMetadataFor env standup_date p,
        scheduled_time := p.standup_time }
    .ok (logs.map (fun x => if logKey p.id standup_date x then updated else x), nid, updated)

/-- The per-project loop of run_daily_standup_check over the active projects,
threading the log table, the autoincrement counter and log_entries. -/
def runLoop (env : ProviderEnv) (standup_date : Int) :
    List Project → List DailyStandupLog → Int → List DailyStandupLog →
    Except String (List DailyStandupLog × Int × List DailyStandupLog)
  | [], logs, nid, entries => .ok (logs, nid, entries)
  | p :: ps, logs, nid, entries =>
    match runStep env standup_date logs nid p with
    | .error e => .error e
    | .ok (logs2, nid2, entry) => runLoop env standup_date ps logs2 nid2 (entries ++ [entry])

/-- app/schemas/daily_standup_log.py DailyStandupLogRead: public representation
of a log entry, with the status parsed back into the enum. -/
structure DailyStandupLogRead where
  id : Int
  project_id : Int
  standup_date : Int
  scheduled_time : Int
  status : DailyStandupStatus
  attendance_count : Int
  duration_minutes : ℚ
  deriving DecidableEq, Repr

/-- Pydantic DailyStandupLogRead.model_validate on a log row; `none` models a
ValidationError on a status string outside the enum. -/
def DailyStandupLogRead.model_validate (l : DailyStandupLog) :
    Option DailyStandupLogRead :=
  (parseStatus l.status).map (fun st =>
    { id := l.id,
      project_id := l.project_id,
      standup_date := l.standup_date,
      scheduled_time := l.scheduled_time,
      status := st,
      attendance_count := l.attendance_count,
      duration_minutes := l.duration_minutes })

/-- The list comprehension validating all log_entries into read models. -/
def validateEntries : List DailyStandupLog → Option (List DailyStandupLogRead)
  | [] => some []
  | l :: ls =>
    match DailyStandupLogRead.model_validate l with
    | none => none
    | some r =>
      match validateEntries ls with
      | none => none
      | some rs => some (r :: rs)

/-- app/schemas/daily_standup_log.py DailyCheckSummary: summary payload of one
daily check run. -/
structure DailyCheckSummary where
  standup_date : Int
  total_projects_evaluated : Nat
  logs_created : Nat
  entries : List DailyStandupLogRead
  deriving DecidableEq, Repr

/-- app/services/daily_check.py run_daily_standup_check: execute the daily
standup compliance check for all active projects against the given database
state, returning the new database state and the run summary. -/
def run_daily_standup_check (env : ProviderEnv) (db : DB) (standup_date : Int) :
    Except String (DB × DailyCheckSummary) :=
  let active_projects := db.projects.filter (fun p => p.is_active)
  match runLoop env standup_date active_projects db.logs db.next_log_id [] with
  | .error e => .error e
  | .ok (logs2, nid2, log_entries) =>
    match validateEntries log_entries with
    | none => .error "ValidationError"
    | some read_entries =>
      .ok ({ db with logs := logs2, next_log_id := nid2 },
        { standup_date := standup_date,
          total_projects_evaluated := active_projects.length,
          logs_created := read_entries.length,
          entries := read_entries })

/-- Round-half-to-even of a rational to an integer (the tie-breaking Python
round uses), written with kernel-computable integer operations. -/
def roundHalfEven (q : ℚ) : ℤ :=
  let f := q.num.fdiv (q.den : ℤ)
  let rem2 := 2 * (q.num - f * (q.den : ℤ))
  if rem2 < (q.den : ℤ) then f
  else if (q.den : ℤ) < rem2 then f + 1
  else if f % 2 = 0 then f else f + 1

/-- Python `round(q, 2)`: round to two decimal places, ties to even. -/
def round2 (q : ℚ) : ℚ :=
  Rat.divInt (roundHalfEven (Rat.divInt (q.num * 100) (q.den : ℤ))) 100

/-- The exact value of `happened / float(total) * 100.0` as a rational,
written with the kernel-computable `Rat.divInt` (see compliancePct_eq). -/
def compliancePct (happened total : Nat) : ℚ :=
  Rat.divInt ((happened : Int) * 100) (total : Int)

/-- app/services/weekly_summary.py: the try/except around
`DailyStandupStatus(log.status)` that treats unknown status strings as
NO_DATA. -/
def statusOfString (s : String) : DailyStandupStatus :=
  (parseStatus s).getD .NO_DATA

/-- The five per-status counters of the aggregation loops. -/
structure StatusCounts where
  happened : Nat
  missed : Nat
  cancelled : Nat
  no_data : Nat
  error : Nat
  deriving DecidableEq, Repr

/-- The all-zero counters dict the loops start from. -/
def StatusCounts.init : StatusCounts := ⟨0, 0, 0, 0, 0⟩

/-- `counts[status_enum] += 1` (the membership guard in the code is always
true because statusOfString only produces the five enum members). -/
def StatusCounts.bump (c : StatusCounts) : DailyStandupStatus → StatusCounts
  | .HAPPENED => { c with happened := c.happened + 1 }
  | .MISSED => { c with missed := c.missed + 1 }
  | .CANCELLED => { c with cancelled := c.cancelled + 1 }
  | .NO_DATA => { c with no_data := c.no_data + 1 }
  | .ERROR => { c with error := c.error + 1 }

/-- The per-group counting loop shared by compute_weekly_summary and
compute_project_summary. -/
def tallyStatuses (logs : List DailyStandupLog) : StatusCounts :=
  logs.foldl (fun c l => c.bump (statusOfString l.status)) StatusCounts.init

/-- app/schemas/weekly_report.py WeeklyProjectSummary. -/
structure WeeklyProjectSummary where
  project_id : Int
  project_key : String
  project_name : String
  start_date : Int
  end_date : Int
  total_days : Nat
  happened_count : Nat
  missed_count : Nat
  cancelled_count : Nat
  no_data_count : Nat
  error_count : Nat
  compliance_pct : ℚ
  deriving DecidableEq, Repr

/-- app/schemas/weekly_report.py WeeklySummary. -/
structure WeeklySummary where
  start_date : Int
  end_date : Int
  projects : List WeeklyProjectSummary
  deriving DecidableEq, Repr

/-- The failure modes of the aggregator: ValueError on an inverted range,
LookupError on an unknown project id, and the SQLAlchemy MultipleResultsFound
of scalar_one_or_none. -/
inductive SummaryError where
  | invalidRange
  | notFound (project_id : Int)
  | multipleResults
  deriving DecidableEq, Repr

/-- The `standup_date >= start AND standup_date <= end` filter condition. -/
def inRange (start_date end_date : Int) (l : DailyStandupLog) : Bool :=
  decide (start_date ≤ l.standup_date) && decide (l.standup_date ≤ end_date)

/-- The ORDER BY (Project.id, DailyStandupLog.standup_date) relation of the
weekly query. -/
def rowOrder (a b : DailyStandupLog × Project) : Prop :=
  a.2.id < b.2.id ∨ (a.2.id = b.2.id ∧ a.1.standup_date ≤ b.1.standup_date)

instance : DecidableRel rowOrder := fun a b => by
  unfold rowOrder; infer_instance

/-- The inner join of in-range logs with their projects, before ordering. -/
def rawJoin (db : DB) (start_date end_date : Int) :
    List (DailyStandupLog × Project) :=
  (db.logs.filter (inRange start_date end_date)).flatMap
    (fun l => (db.projects.filter (fun p => p.id == l.project_id)).map
      (fun p => (l, p)))

/-- The rows returned by the weekly query: the join, ordered by
(project id, standup date). -/
def joinedRows (db : DB) (start_date end_date : Int) :
    List (DailyStandupLog × Project) :=
  List.insertionSort rowOrder (rawJoin db start_date end_date)

/-- The keys of the defaultdict grouping, in first-appearance order. -/
def groupKeys (rows : List (DailyStandupLog × Project)) : List Int :=
  rows.foldl (fun acc r => if acc.contains r.2.id then acc else acc ++ [r.2.id]) []

/-- The `data["logs"]` list accumulated for one project id, in row order. -/
def groupLogs (rows : List (DailyStandupLog × Project)) (pid : Int) :
    List DailyStandupLog :=
  (rows.filter (fun r => r.2.id == pid)).map Prod.fst

/-- The `data["project"]` slot for one project id: overwritten on every row of
the group, so it ends up being the last one. -/
def groupProject (rows : List (DailyStandupLog × Project)) (pid : Int) :
    Option Project :=
  ((rows.filter (fun r => r.2.id == pid)).map Prod.snd).getLast?

/-- The per-group summary construction shared by both aggregator entry
points: count statuses, then attach the compliance percentage rounded to two
decimals (0.0 when the group is empty). -/
def mkProjectSummary (project : Project) (logs : List DailyStandupLog)
    (start_date end_date : Int) : WeeklyProjectSummary :=
  let total_days := logs.length
  let counts := tallyStatuses logs
  let pct : ℚ :=
    if 0 < total_days then compliancePct counts.happened total_days else 0
  { project_id := project.id,
    project_key := project.project_key,
    project_name := project.name,
    start_date := start_date,
    end_date := end_date,
    total_days := total_days,
    happened_count := counts.happened,
    missed_count := counts.missed,
    cancelled_count := counts.cancelled,
    no_data_count := counts.no_data,
    error_count := counts.error,
    compliance_pct := round2 pct }

/-- app/services/weekly_summary.py compute_weekly_summary: per-project standup
summaries over an arbitrary inclusive date range. -/
def compute_weekly_summary (db : DB) (start_date end_date : Int) :
    Except SummaryError WeeklySummary :=
  if end_date < start_date then .error .invalidRange
  else
    let rows := joinedRows db start_date end_date
    let summaries := (groupKeys rows).filterMap (fun pid =>
      (groupProject rows pid).map (fun project =>
        mkProjectSummary project (groupLogs rows pid) start_date end_date))
    .ok { start_date := start_date, end_date := end_date, projects := summaries }

/-- The ORDER BY standup_date relation of the single-project query. -/
def dateOrder (a b : DailyStandupLog) : Prop :=
  a.standup_date ≤ b.standup_date

instance : DecidableRel dateOrder := fun a b => by
  unfold dateOrder; infer_instance

/-- app/services/weekly_summary.py compute_project_summary: aggregate standup
summary for a single project over a date range; fails with a LookupError when
the project does not exist. -/
def compute_project_summary (db : DB) (project_id : Int)
    (start_date end_date : Int) : Except SummaryError WeeklyProjectSummary :=
  if end_date < start_date then .error .invalidRange
  else
    match scalarOneOrNone (db.projects.filter (fun p => p.id == project_id)) with
    | .error _ => .error .multipleResults
    | .ok none => .error (.notFound project_id)
    | .ok (some project) =>
      let logs := List.insertionSort dateOrder
        (db.logs.filter (fun l =>
          l.project_id == project_id && inRange start_date end_date l))
      .ok (mkProjectSummary project logs start_date end_date)

/-- Spec-side error-marker condition, phrased as in section 4.2 of the spec:
the raw dict contains an "error" key at the top level, or some direct value of
the dict is itself a mapping containing an "error" key. -/
def specErrorMarker (raw : RawDict) : Bool :=
  (raw.map Prod.fst).any (fun k => k == "error") ||
    (raw.map Prod.snd).any (fun v =>
      match v with
      | RawVal.dict d => (d.map Prod.fst).any (fun k => k == "error")
      | _ => false)

/-- Spec-side evaluator, phrased as the first-match-wins decision list of
section 4.2 of the spec. -/
def evaluateSpec : Option MeetingSnapshot → DailyStandupStatus
  | none => .NO_DATA
  | some s =>
    if specErrorMarker (s.raw.getD []) then .ERROR
    else if s.cancelled then .CANCELLED
    else if s.non_organizer_count < 2 then .MISSED
    else if s.duration_minutes ≤ 3 then .MISSED
    else .HAPPENED


lemma any_map_comp {α β : Type} (f : α → β) (l : List α) (p : β → Bool) :
    (l.map f).any p = l.any (fun a => p (f a)) := by
  induction l with
  | nil => rfl
  | cons x xs ih => simp [List.any_cons, ih]

lemma errorMarkerScan_eq_spec (raw : RawDict) :
    errorMarkerScan raw = specErrorMarker raw := by
  unfold errorMarkerScan specErrorMarker RawDict.hasKey
  simp only [any_map_comp]
  cases h : raw.any (fun kv => kv.1 == "error") <;>
    simp [h]

/-- C1: the compliance evaluator returns exactly one of the five statuses,
following the spec decision list in order: null snapshot to NO_DATA, then the
error-marker scan (top level "error" key or an "error" key in a direct dict
value) to ERROR, then cancellation to CANCELLED, then fewer than 2
non-organizers to MISSED, then duration at most 3.0 minutes (boundary
included) to MISSED, otherwise HAPPENED; so error markers take priority over
cancellation, which wins over the attendee and duration checks. -/
theorem evaluate_matches_spec_decision_list (snap : Option MeetingSnapshot) :
    StandupEvaluator.evaluate snap = evaluateSpec snap ∧
      (StandupEvaluator.evaluate snap = .HAPPENED ∨
       StandupEvaluator.evaluate snap = .MISSED ∨
       StandupEvaluator.evaluate snap = .CANCELLED ∨
       StandupEvaluator.evaluate snap = .NO_DATA ∨
       StandupEvaluator.evaluate snap = .ERROR) := by
  constructor
  · cases snap with
    | none => rfl
    | some s =>
      simp only [StandupEvaluator.evaluate, evaluateSpec, errorMarkerScan_eq_spec]
  · cases h : StandupEvaluator.evaluate snap <;> simp

/-- Whether a given key ended up in the raw payload of a snapshot. -/
def snapshotHasKey (s : MeetingSnapshot) (k : String) : Bool :=
  RawDict.hasKey (s.raw.getD []) k

/-- The section 4.1 contract of the snapshot builder, relating a built
snapshot to the two optional inputs. -/
def BuildSnapshotContract (occurrence : Option MeetingOccurrence)
    (attendance : Option AttendanceSummary) (s : MeetingSnapshot) : Prop :=
  (s.cancelled = (match occurrence with
    | some o => o.is_cancelled
    | none => false)) ∧
  ((s.non_organizer_count, s.duration_minutes) = (match attendance with
    | some a => if a.has_data then (a.non_organizer_count, a.duration_minutes)
                else ((0 : Int), (0 : ℚ))
    | none => ((0 : Int), (0 : ℚ)))) ∧
  (snapshotHasKey s "occurrence" = true ↔
    (∃ o r, occurrence = some o ∧ o.raw = some r)) ∧
  (snapshotHasKey s "attendance" = true ↔
    ((occurrence ≠ none ∧ ∃ a r, attendance = some a ∧ a.raw = some r) ∨
     (∃ a r, attendance = some a ∧ a.has_data = true ∧ a.raw = some r))) ∧
  (s.raw = none ↔
    (snapshotHasKey s "occurrence" = false ∧
     snapshotHasKey s "attendance" = false)) ∧
  s.raw ≠ some []

/-- C2: build_snapshot is total and satisfies the section 4.1 contract:
cancelled comes from the occurrence when present and is false otherwise; the
attendance metrics are copied exactly when attendance is present with
has_data, and default to 0 / 0.0 otherwise; "occurrence" appears in raw iff
the occurrence is present with a non-null raw; "attendance" appears iff
(occurrence present and attendance raw non-null) or (has_data and attendance
raw non-null); and when no key was attached the raw payload is None, never an
empty dict. -/
theorem build_snapshot_contract (occurrence : Option MeetingOccurrence)
    (attendance : Option AttendanceSummary) :
    BuildSnapshotContract occurrence attendance
      (MeetingNormalizer.build_snapshot occurrence attendance) := by
  rcases occurrence with _ | ⟨omid, ost, oen, ocanc, oraw⟩ <;>
    rcases attendance with _ | ⟨amid, acount, adur, ahas, araw⟩
  · simp [BuildSnapshotContract, MeetingNormalizer.build_snapshot,
      snapshotHasKey, RawDict.hasKey]
  · cases ahas <;> cases araw <;>
      simp [BuildSnapshotContract, MeetingNormalizer.build_snapshot,
        snapshotHasKey, RawDict.hasKey, RawDict.insert]
  · cases oraw <;>
      simp [BuildSnapshotContract, MeetingNormalizer.build_snapshot,
        snapshotHasKey, RawDict.hasKey, RawDict.insert]
  · cases ahas <;> cases araw <;> cases oraw <;>
      simp [BuildSnapshotContract, MeetingNormalizer.build_snapshot,
        snapshotHasKey, RawDict.hasKey, RawDict.insert]

lemma foldl_bump_spec (logs : List DailyStandupLog) (c : StatusCounts) :
    logs.foldl (fun acc l => acc.bump (statusOfString l.status)) c =
      { happened := c.happened +
          logs.countP (fun l => statusOfString l.status == .HAPPENED),
        missed := c.missed +
          logs.countP (fun l => statusOfString l.status == .MISSED),
        cancelled := c.cancelled +
          logs.countP (fun l => statusOfString l.status == .CANCELLED),
        no_data := c.no_data +
          logs.countP (fun l => statusOfString l.status == .NO_DATA),
        error := c.error +
          logs.countP (fun l => statusOfString l.status == .ERROR) } := by
  induction logs generalizing c with
  | nil => simp
  | cons x xs ih =>
    rw [List.foldl_cons, ih]
    cases h : statusOfString x.status <;>
      simp [StatusCounts.bump, List.countP_cons, h] <;> omega

lemma tallyStatuses_spec (logs : List DailyStandupLog) :
    tallyStatuses logs =
      { happened := logs.countP (fun l => statusOfString l.status == .HAPPENED),
        missed := logs.countP (fun l => statusOfString l.status == .MISSED),
        cancelled := logs.countP (fun l => statusOfString l.status == .CANCELLED),
        no_data := logs.countP (fun l => statusOfString l.status == .NO_DATA),
        error := logs.countP (fun l => statusOfString l.status == .ERROR) } := by
  unfold tallyStatuses
  rw [foldl_bump_spec]
  simp [StatusCounts.init]

lemma countP_status_partition (logs : List DailyStandupLog) :
    logs.countP (fun l => statusOfString l.status == .HAPPENED) +
    logs.countP (fun l => statusOfString l.status == .MISSED) +
    logs.countP (fun l => statusOfString l.status == .CANCELLED) +
    logs.countP (fun l => statusOfString l.status == .NO_DATA) +
    logs.countP (fun l => statusOfString l.status == .ERROR) = logs.length := by
  induction logs with
  | nil => rfl
  | cons x xs ih =>
    cases h : statusOfString x.status <;>
      simp [List.countP_cons, h] <;> omega

lemma mkProjectSummary_counts_sum (project : Project)
    (logs : List DailyStandupLog) (s e : Int) :
    let ps := mkProjectSummary project logs s e
    ps.happened_count + ps.missed_count + ps.cancelled_count +
      ps.no_data_count + ps.error_count = ps.total_days := by
  unfold mkProjectSummary
  rw [tallyStatuses_spec]
  exact countP_status_partition logs

lemma weekly_ok_inv (db : DB) (s e : Int) (res : WeeklySummary)
    (h : compute_weekly_summary db s e = .ok res) :
    ¬ e < s ∧
      res.projects = (groupKeys (joinedRows db s e)).filterMap (fun pid =>
        (groupProject (joinedRows db s e) pid).map (fun project =>
          mkProjectSummary project (groupLogs (joinedRows db s e) pid) s e)) := by
  unfold compute_weekly_summary at h
  by_cases hlt : e < s
  · simp [hlt] at h
  · rw [if_neg hlt] at h
    simp only [Except.ok.injEq] at h
    subst h
    exact ⟨hlt, rfl⟩

lemma project_summary_ok_inv (db : DB) (pid s e : Int)
    (sum : WeeklyProjectSummary)
    (h : compute_project_summary db pid s e = .ok sum) :
    ¬ e < s ∧ ∃ project,
      scalarOneOrNone (db.projects.filter (fun p => p.id == pid)) =
        .ok (some project) ∧
      sum = mkProjectSummary project
        (List.insertionSort dateOrder (db.logs.filter (fun l =>
          l.project_id == pid && inRange s e l))) s e := by
  unfold compute_project_summary at h
  by_cases hlt : e < s
  · simp [hlt] at h
  · rw [if_neg hlt] at h
    refine ⟨hlt, ?_⟩
    cases hso : scalarOneOrNone (db.projects.filter (fun p => p.id == pid)) with
    | error er => rw [hso] at h; simp at h
    | ok o =>
      cases o with
      | none => rw [hso] at h; simp at h
      | some project =>
        rw [hso] at h
        simp only [Except.ok.injEq] at h
        exact ⟨project, rfl, h.symm⟩

lemma project_filter_singleton (projects : List Project) (pid : Int)
    (hN : (projects.map (fun p => p.id)).Nodup) :
    projects.filter (fun p => p.id == pid) = [] ∨
      ∃ q, projects.filter (fun p => p.id == pid) = [q] ∧ q.id = pid := by
  induction projects with
  | nil => left; rfl
  | cons p ps ih =>
    simp only [List.map_cons, List.nodup_cons] at hN
    by_cases hid : p.id = pid
    · right
      refine ⟨p, ?_, hid⟩
      have hrest : ps.filter (fun q => q.id == pid) = [] := by
        rw [List.filter_eq_nil_iff]
        intro q hq
        simp only [beq_iff_eq]
        intro hqe
        exact hN.1 (List.mem_map.mpr ⟨q, hq, by rw [hqe, hid]⟩)
      simp [List.filter_cons, hid, hrest]
    · have : (p.id == pid) = false := by simp [hid]
      simp only [List.filter_cons, this, if_false, cond_false]
      exact ih hN.2

lemma project_filter_ne_nil (projects : List Project) (pid : Int)
    (hEx : ∃ p ∈ projects, p.id = pid) :
    projects.filter (fun p => p.id == pid) ≠ [] := by
  obtain ⟨p, hp, hid⟩ := hEx
  intro hnil
  rw [List.filter_eq_nil_iff] at hnil
  exact hnil p hp (by simp [hid])

lemma mem_weekly_projects (db : DB) (s e : Int) (res : WeeklySummary)
    (ps : WeeklyProjectSummary)
    (h : compute_weekly_summary db s e = .ok res) (hmem : ps ∈ res.projects) :
    ∃ pid project, pid ∈ groupKeys (joinedRows db s e) ∧
      groupProject (joinedRows db s e) pid = some project ∧
      ps = mkProjectSummary project (groupLogs (joinedRows db s e) pid) s e := by
  obtain ⟨-, hres⟩ := weekly_ok_inv db s e res h
  rw [hres] at hmem
  simp only [List.mem_filterMap, Option.map_eq_some'] at hmem
  obtain ⟨pid, hpid, project, hproj, heq⟩ := hmem
  exact ⟨pid, project, hpid, hproj, heq.symm⟩

/-- C10: every summary produced by either aggregator distributes its rows over
the five status counters with nothing dropped or double counted: the five
counts sum to total_days (unknown status strings land in no_data_count). -/
theorem summary_counts_partition (db : DB) (s e pid : Int) :
    (∀ res, compute_weekly_summary db s e = .ok res → ∀ ps ∈ res.projects,
      ps.happened_count + ps.missed_count + ps.cancelled_count +
        ps.no_data_count + ps.error_count = ps.total_days) ∧
    (∀ sum, compute_project_summary db pid s e = .ok sum →
      sum.happened_count + sum.missed_count + sum.cancelled_count +
        sum.no_data_count + sum.error_count = sum.total_days) := by
  constructor
  · intro res h ps hmem
    obtain ⟨gpid, project, -, -, heq⟩ := mem_weekly_projects db s e res ps h hmem
    rw [heq]
    exact mkProjectSummary_counts_sum project _ s e
  · intro sum h
    obtain ⟨-, project, -, heq⟩ := project_summary_ok_inv db pid s e sum h
    rw [heq]
    exact mkProjectSummary_counts_sum project _ s e

lemma scalarOneOrNone_ok_some {α : Type} (rows : List α) (x : α)
    (h : scalarOneOrNone rows = .ok (some x)) : rows = [x] := by
  match rows, h with
  | [], h => simp [scalarOneOrNone] at h
  | [a], h =>
    simp only [scalarOneOrNone, Except.ok.injEq, Option.some.injEq] at h
    rw [h]
  | a :: b :: rest, h => simp [scalarOneOrNone] at h

/-- C8: both aggregator entry points fail with the invalid-range client error
exactly when end_date < start_date and otherwise proceed;
compute_project_summary additionally fails with not-found exactly when no
project has the requested id.  Both functions are pure readers of the
database state, so no stored state is changed on any path. -/
theorem summary_error_contract (db : DB) (pid s e : Int)
    (hN : (db.projects.map (fun p => p.id)).Nodup) :
    (e < s → compute_weekly_summary db s e = .error .invalidRange) ∧
    (s ≤ e → ∃ res, compute_weekly_summary db s e = .ok res) ∧
    (e < s → compute_project_summary db pid s e = .error .invalidRange) ∧
    (s ≤ e → (∀ p ∈ db.projects, p.id ≠ pid) →
      compute_project_summary db pid s e = .error (.notFound pid)) ∧
    (s ≤ e → (∃ p ∈ db.projects, p.id = pid) →
      ∃ sum, compute_project_summary db pid s e = .ok sum) := by
  refine ⟨?_, ?_, ?_, ?_, ?_⟩
  · intro hlt
    unfold compute_weekly_summary
    rw [if_pos hlt]
  · intro hle
    unfold compute_weekly_summary
    rw [if_neg (not_lt.mpr hle)]
    exact ⟨_, rfl⟩
  · intro hlt
    unfold compute_project_summary
    rw [if_pos hlt]
  · intro hle hnone
    unfold compute_project_summary
    rw [if_neg (not_lt.mpr hle)]
    have hfil : db.projects.filter (fun p => p.id == pid) = [] := by
      rw [List.filter_eq_nil_iff]
      intro p hp
      simp only [beq_iff_eq]
      exact hnone p hp
    rw [hfil]
    rfl
  · intro hle hex
    unfold compute_project_summary
    rw [if_neg (not_lt.mpr hle)]
    rcases project_filter_singleton db.projects pid hN with hnil | ⟨q, hq, -⟩
    · exact absurd hnil (project_filter_ne_nil db.projects pid hex)
    · rw [hq]
      exact ⟨_, rfl⟩

/-- The log rows of the database that the aggregators attribute to a given
project id over a range: right project, standup_date within [start, end]. -/
def rangeLogsFor (db : DB) (s e pid : Int) : List DailyStandupLog :=
  db.logs.filter (fun l => l.project_id == pid && inRange s e l)

lemma groupLogs_append (a b : List (DailyStandupLog × Project)) (pid : Int) :
    groupLogs (a ++ b) pid = groupLogs a pid ++ groupLogs b pid := by
  simp [groupLogs, List.filter_append]

lemma groupLogs_map_pair (x : DailyStandupLog) (qs : List Project) (pid : Int) :
    groupLogs (qs.map (fun p => (x, p))) pid =
      List.replicate ((qs.filter (fun p => p.id == pid)).length) x := by
  induction qs with
  | nil => rfl
  | cons q qs ih =>
    by_cases h : q.id = pid <;>
      simp [groupLogs, List.filter_cons, h, List.replicate_succ] <;>
      simpa [groupLogs] using ih

lemma project_filter_double (projects : List Project) (a b : Int) :
    (projects.filter (fun p => p.id == a)).filter (fun p => p.id == b) =
      if a = b then projects.filter (fun p => p.id == a) else [] := by
  by_cases hab : a = b
  · subst hab
    rw [if_pos rfl]
    rw [List.filter_eq_self]
    intro p hp
    exact (List.mem_filter.mp hp).2
  · rw [if_neg hab, List.filter_eq_nil_iff]
    intro p hp
    have := (List.mem_filter.mp hp).2
    simp only [beq_iff_eq] at this
    simp [this, hab]

lemma groupLogs_rawJoin (projects : List Project)
    (logs : List DailyStandupLog) (s e pid : Int)
    (hone : (projects.filter (fun p => p.id == pid)).length = 1) :
    groupLogs ((logs.filter (inRange s e)).flatMap (fun l =>
      (projects.filter (fun p => p.id == l.project_id)).map
        (fun p => (l, p)))) pid =
      logs.filter (fun l => l.project_id == pid && inRange s e l) := by
  induction logs with
  | nil => rfl
  | cons x xs ih =>
    by_cases hin : inRange s e x = true
    · have hfl : (x :: xs).filter (inRange s e) =
          x :: xs.filter (inRange s e) := by
        simp [List.filter_cons, hin]
      rw [hfl, List.flatMap_cons, groupLogs_append, groupLogs_map_pair,
        project_filter_double, ih]
      by_cases hpid : x.project_id = pid
      · rw [if_pos hpid, hpid, hone]
        simp [List.filter_cons, hin, hpid]
      · rw [if_neg hpid]
        simp [List.filter_cons, hin, hpid]
    · have hfl : (x :: xs).filter (inRange s e) = xs.filter (inRange s e) := by
        simp [List.filter_cons, hin]
      rw [hfl, ih]
      simp [List.filter_cons, hin]

lemma mem_groupKeys (rows : List (DailyStandupLog × Project)) (pid : Int)
    (h : pid ∈ groupKeys rows) : ∃ r ∈ rows, r.2.id = pid := by
  unfold groupKeys at h
  suffices haux : ∀ acc : List Int, pid ∈ rows.foldl
      (fun acc r => if acc.contains r.2.id then acc else acc ++ [r.2.id]) acc →
      pid ∈ acc ∨ ∃ r ∈ rows, r.2.id = pid by
    rcases haux [] h with hacc | hex
    · simp at hacc
    · exact hex
  clear h
  induction rows with
  | nil => intro acc h; exact Or.inl h
  | cons r rows ih =>
    intro acc h
    rw [List.foldl_cons] at h
    rcases ih _ h with hacc | hex
    · by_cases hc : acc.contains r.2.id
      · rw [if_pos hc] at hacc
        exact Or.inl hacc
      · rw [if_neg hc, List.mem_append] at hacc
        rcases hacc with hacc | hacc
        · exact Or.inl hacc
        · simp only [List.mem_singleton] at hacc
          exact Or.inr ⟨r, List.mem_cons_self r rows, hacc.symm⟩
    · obtain ⟨r2, hr2, hid⟩ := hex
      exact Or.inr ⟨r2, List.mem_cons_of_mem r hr2, hid⟩

lemma groupProject_mem (rows : List (DailyStandupLog × Project)) (pid : Int)
    (project : Project) (h : groupProject rows pid = some project) :
    (∃ r ∈ rows, r.2 = project) ∧ project.id = pid := by
  unfold groupProject at h
  have hmem := List.mem_of_getLast?_eq_some h
  simp only [List.mem_map, List.mem_filter] at hmem
  obtain ⟨r, ⟨hr, hid⟩, heq⟩ := hmem
  simp only [beq_iff_eq] at hid
  exact ⟨⟨r, hr, heq⟩, heq ▸ hid⟩

lemma rawJoin_mem (db : DB) (s e : Int) (r : DailyStandupLog × Project)
    (h : r ∈ rawJoin db s e) :
    r.1 ∈ db.logs ∧ inRange s e r.1 = true ∧ r.2 ∈ db.projects ∧
      r.2.id = r.1.project_id := by
  unfold rawJoin at h
  simp only [List.mem_flatMap, List.mem_map, List.mem_filter] at h
  obtain ⟨l, ⟨hl, hin⟩, p, ⟨hp, hpid⟩, heq⟩ := h
  simp only [beq_iff_eq] at hpid
  rw [← heq]
  exact ⟨hl, hin, hp, hpid⟩

lemma groupLogs_nonempty (rows : List (DailyStandupLog × Project)) (pid : Int)
    (h : ∃ r ∈ rows, r.2.id = pid) : 0 < (groupLogs rows pid).length := by
  obtain ⟨r, hr, hid⟩ := h
  unfold groupLogs
  rw [List.length_map, List.length_pos]
  intro hnil
  rw [List.filter_eq_nil_iff] at hnil
  exact hnil r hr (by simp [hid])

lemma compliancePct_eq (h t : Nat) :
    compliancePct h t = (h : ℚ) / (t : ℚ) * 100 := by
  unfold compliancePct
  rw [Rat.divInt_eq_div]
  push_cast
  ring

lemma round2_zero : round2 0 = 0 := by decide

/-- Correctness contract of a per-project summary over a database and range:
total_days counts exactly the in-range rows of the project, every row is
attributed to the counter of its parsed status (unknown strings parse to
NO_DATA), and the compliance percentage is the rounded happened ratio, zero
for an empty group. -/
def SummaryCorrect (db : DB) (s e : Int) (ps : WeeklyProjectSummary) : Prop :=
  ps.total_days = (rangeLogsFor db s e ps.project_id).length ∧
  ps.happened_count = (rangeLogsFor db s e ps.project_id).countP
    (fun l => statusOfString l.status == .HAPPENED) ∧
  ps.missed_count = (rangeLogsFor db s e ps.project_id).countP
    (fun l => statusOfString l.status == .MISSED) ∧
  ps.cancelled_count = (rangeLogsFor db s e ps.project_id).countP
    (fun l => statusOfString l.status == .CANCELLED) ∧
  ps.no_data_count = (rangeLogsFor db s e ps.project_id).countP
    (fun l => statusOfString l.status == .NO_DATA) ∧
  ps.error_count = (rangeLogsFor db s e ps.project_id).countP
    (fun l => statusOfString l.status == .ERROR) ∧
  ps.compliance_pct =
    (if 0 < ps.total_days
     then round2 ((ps.happened_count : ℚ) / (ps.total_days : ℚ) * 100)
     else 0)

lemma mkProjectSummary_SummaryCorrect (db : DB) (s e pid : Int)
    (project : Project) (logs : List DailyStandupLog)
    (hpid : project.id = pid)
    (hperm : logs.Perm (rangeLogsFor db s e pid)) :
    SummaryCorrect db s e (mkProjectSummary project logs s e) := by
  have hlen := hperm.length_eq
  have hcnt := fun p => hperm.countP_eq p
  unfold SummaryCorrect mkProjectSummary
  simp only [tallyStatuses_spec, hpid, hlen, hcnt]
  simp only [true_and]
  by_cases hpos : 0 < (rangeLogsFor db s e pid).length
  · rw [if_pos hpos, if_pos hpos, compliancePct_eq]
  · rw [if_neg hpos, if_neg hpos, round2_zero]

lemma groupLogs_joined_perm_range (db : DB) (s e gpid : Int)
    (hone : (db.projects.filter (fun p => p.id == gpid)).length = 1) :
    (groupLogs (joinedRows db s e) gpid).Perm (rangeLogsFor db s e gpid) := by
  have hrows : (joinedRows db s e).Perm (rawJoin db s e) :=
    List.perm_insertionSort _ _
  have h1 : (groupLogs (joinedRows db s e) gpid).Perm
      (groupLogs (rawJoin db s e) gpid) := by
    unfold groupLogs
    exact (hrows.filter _).map _
  have h2 : groupLogs (rawJoin db s e) gpid = rangeLogsFor db s e gpid := by
    unfold rawJoin rangeLogsFor
    exact groupLogs_rawJoin db.projects db.logs s e gpid hone
  rw [h2] at h1
  exact h1

/-- C6: every per-project summary produced by either aggregator has
total_days equal to the number of log rows of that project in the inclusive
range, counts each row under its stored status with unknown strings counted
as NO_DATA, and reports compliance_pct = happened / total_days * 100 rounded
to two decimals (0.0 for an empty group). -/
theorem summary_numbers_correct (db : DB) (s e pid : Int)
    (hN : (db.projects.map (fun p => p.id)).Nodup) :
    (∀ res, compute_weekly_summary db s e = .ok res →
      ∀ ps ∈ res.projects, SummaryCorrect db s e ps) ∧
    (∀ sum, compute_project_summary db pid s e = .ok sum →
      SummaryCorrect db s e sum) := by
  constructor
  · intro res h ps hmem
    obtain ⟨gpid, project, hkey, hproj, heq⟩ :=
      mem_weekly_projects db s e res ps h hmem
    obtain ⟨⟨r, hr, hrproj⟩, hprojid⟩ := groupProject_mem _ _ _ hproj
    have hrows : (joinedRows db s e).Perm (rawJoin db s e) :=
      List.perm_insertionSort _ _
    obtain ⟨hlog, hin, hpmem, hpid2⟩ :=
      rawJoin_mem db s e r (hrows.mem_iff.mp hr)
    have hone : (db.projects.filter (fun p => p.id == gpid)).length = 1 := by
      rcases project_filter_singleton db.projects gpid hN with hnil | ⟨q, hq, -⟩
      · exact absurd hnil (project_filter_ne_nil db.projects gpid
          ⟨r.2, hpmem, by rw [hrproj, hprojid]⟩)
      · rw [hq]; rfl
    rw [heq]
    exact mkProjectSummary_SummaryCorrect db s e gpid project _ hprojid
      (groupLogs_joined_perm_range db s e gpid hone)
  · intro sum h
    obtain ⟨-, project, hso, heq⟩ := project_summary_ok_inv db pid s e sum h
    have hfil := scalarOneOrNone_ok_some _ _ hso
    have hpidq : project.id = pid := by
      have hmemf : project ∈ db.projects.filter (fun p => p.id == pid) := by
        rw [hfil]; exact List.mem_singleton.mpr rfl
      simpa using (List.mem_filter.mp hmemf).2
    rw [heq]
    exact mkProjectSummary_SummaryCorrect db s e pid project _ hpidq
      (List.perm_insertionSort _ _)

/-- C7: compute_weekly_summary omits projects with zero in-range logs
entirely (no returned summary ever has total_days = 0, and a project with no
rows in range never appears in the output), while compute_project_summary on
an existing project with zero in-range logs succeeds and returns a summary
with total_days = 0 and every status count 0. -/
theorem weekly_omits_empty_project_summary_keeps (db : DB) (s e pid : Int)
    (hN : (db.projects.map (fun p => p.id)).Nodup) :
    (∀ res, compute_weekly_summary db s e = .ok res →
      ∀ ps ∈ res.projects, 0 < ps.total_days) ∧
    (∀ res, compute_weekly_summary db s e = .ok res →
      ∀ p ∈ db.projects, rangeLogsFor db s e p.id = [] →
        ∀ ps ∈ res.projects, ps.project_id ≠ p.id) ∧
    (s ≤ e → ∀ p ∈ db.projects, p.id = pid → rangeLogsFor db s e pid = [] →
      ∃ sum, compute_project_summary db pid s e = .ok sum ∧
        sum.total_days = 0 ∧ sum.happened_count = 0 ∧ sum.missed_count = 0 ∧
        sum.cancelled_count = 0 ∧ sum.no_data_count = 0 ∧
        sum.error_count = 0) := by
  refine ⟨?_, ?_, ?_⟩
  · intro res h ps hmem
    obtain ⟨gpid, project, hkey, hproj, heq⟩ :=
      mem_weekly_projects db s e res ps h hmem
    have hex := mem_groupKeys _ _ hkey
    rw [heq]
    exact groupLogs_nonempty _ _ hex
  · intro res h p hp hempty ps hmem
    obtain ⟨gpid, project, hkey, hproj, heq⟩ :=
      mem_weekly_projects db s e res ps h hmem
    obtain ⟨-, hprojid⟩ := groupProject_mem _ _ _ hproj
    have hpsid : ps.project_id = gpid := by rw [heq, mkProjectSummary, hprojid]
    rw [hpsid]
    intro hgp
    obtain ⟨r, hr, hrid⟩ := mem_groupKeys _ _ hkey
    have hrows : (joinedRows db s e).Perm (rawJoin db s e) :=
      List.perm_insertionSort _ _
    obtain ⟨hlog, hin, -, hpid2⟩ := rawJoin_mem db s e r (hrows.mem_iff.mp hr)
    have : r.1 ∈ rangeLogsFor db s e p.id := by
      unfold rangeLogsFor
      rw [List.mem_filter]
      exact ⟨hlog, by simp [← hpid2, hrid, hgp, hin]⟩
    rw [hempty] at this
    exact absurd this (List.not_mem_nil r.1)
  · intro hle p hp hpid hempty
    rcases project_filter_singleton db.projects pid hN with hnil | ⟨q, hq, -⟩
    · exact absurd hnil (project_filter_ne_nil db.projects pid ⟨p, hp, hpid⟩)
    · refine ⟨mkProjectSummary q [] s e, ?_, by simp [mkProjectSummary], ?_, ?_, ?_, ?_, ?_⟩
      · unfold compute_project_summary
        rw [if_neg (not_lt.mpr hle), hq]
        unfold rangeLogsFor at hempty
        rw [show (db.logs.filter (fun l =>
            l.project_id == pid && inRange s e l)) = [] from hempty]
        rfl
      all_goals simp [mkProjectSummary, tallyStatuses, StatusCounts.init]

lemma logKey_iff (pid d : Int) (l : DailyStandupLog) :
    logKey pid d l = true ↔ l.project_id = pid ∧ l.standup_date = d := by
  simp [logKey]

lemma filter_map_pointwise {α : Type} (g : α → α) (p : α → Bool)
    (l : List α) (hp : ∀ x ∈ l, p (g x) = p x) :
    (l.map g).filter p = (l.filter p).map g := by
  induction l with
  | nil => rfl
  | cons x xs ih =>
    have hx := hp x (List.mem_cons_self x xs)
    have hrest : ∀ y ∈ xs, p (g y) = p y :=
      fun y hy => hp y (List.mem_cons_of_mem x hy)
    cases hpx : p x with
    | true => simp [List.filter_cons, hpx, hx, ih hrest]
    | false => simp [List.filter_cons, hpx, hx, ih hrest]

lemma map_id_of {α : Type} (g : α → α) (l : List α)
    (h : ∀ x ∈ l, g x = x) : l.map g = l := by
  induction l with
  | nil => rfl
  | cons x xs ih =>
    rw [List.map_cons, h x (List.mem_cons_self x xs),
      ih (fun y hy => h y (List.mem_cons_of_mem x hy))]

/-- The field values the orchestrator writes into the log row of one project
on one run. -/
def EntryFor (env : ProviderEnv) (d : Int) (p : Project)
    (x : DailyStandupLog) : Prop :=
  x.project_id = p.id ∧ x.standup_date = d ∧
  x.status = statusValueFor env d p ∧
  x.attendance_count = attendanceCountFor env d p ∧
  x.duration_minutes = durationMinutesFor env d p ∧
  x.raw_metadata = rawMetadataFor env d p ∧
  x.scheduled_time = p.standup_time

lemma runStep_ok_of_le_one (env : ProviderEnv) (d : Int)
    (logs : List DailyStandupLog) (nid : Int) (p : Project)
    (hU : keyCount logs p.id d ≤ 1) :
    ∃ out, runStep env d logs nid p = .ok out := by
  unfold runStep
  rcases hf : logs.filter (logKey p.id d) with _ | ⟨l, _ | ⟨l2, rest2⟩⟩
  · exact ⟨_, rfl⟩
  · exact ⟨_, rfl⟩
  · exfalso
    rw [keyCount, List.countP_eq_length_filter, hf] at hU
    simp at hU

lemma runStep_spec (env : ProviderEnv) (d : Int)
    (logs : List DailyStandupLog) (nid : Int) (p : Project)
    (logs2 : List DailyStandupLog) (nid2 : Int) (entry : DailyStandupLog)
    (h : runStep env d logs nid p = .ok (logs2, nid2, entry)) :
    EntryFor env d p entry ∧
    logs2.filter (logKey p.id d) = [entry] ∧
    (∀ pid dd, ¬(pid = p.id ∧ dd = d) →
      logs2.filter (logKey pid dd) = logs.filter (logKey pid dd)) ∧
    logs2.length = logs.length +
      (if logs.filter (logKey p.id d) = [] then 1 else 0) := by
  unfold runStep at h
  rcases hf : logs.filter (logKey p.id d) with _ | ⟨l, _ | ⟨l2, rest2⟩⟩
  · rw [hf] at h
    simp only [scalarOneOrNone, Except.ok.injEq, Prod.mk.injEq] at h
    obtain ⟨hlogs2, hnid2, hentry⟩ := h
    subst hlogs2
    subst hentry
    refine ⟨⟨rfl, rfl, rfl, rfl, rfl, rfl, rfl⟩, ?_, ?_, ?_⟩
    · rw [List.filter_append, hf]
      simp [List.filter_cons, logKey]
    · intro pid dd hne
      rw [List.filter_append]
      have hkeyother : logKey pid dd
          ({ id := nid, project_id := p.id, standup_date := d,
             scheduled_time := p.standup_time,
             status := statusValueFor env d p,
             attendance_count := attendanceCountFor env d p,
             duration_minutes := durationMinutesFor env d p,
             raw_metadata := rawMetadataFor env d p } : DailyStandupLog)
            = false := by
        rw [← Bool.not_eq_true]
        intro hcon
        obtain ⟨h1, h2⟩ := (logKey_iff pid dd _).mp hcon
        exact hne ⟨h1.symm, h2.symm⟩
      simp [List.filter_cons, hkeyother]
    · simp [List.length_append]
  · rw [hf] at h
    simp only [scalarOneOrNone, Except.ok.injEq, Prod.mk.injEq] at h
    obtain ⟨hlogs2, hnid2, hentry⟩ := h
    have hlmem : l ∈ logs.filter (logKey p.id d) := by
      rw [hf]; exact List.mem_singleton.mpr rfl
    have hlkey : logKey p.id d l = true := (List.mem_filter.mp hlmem).2
    obtain ⟨hlpid, hldate⟩ := (logKey_iff p.id d l).mp hlkey
    subst hlogs2
    subst hentry
    have hpoint : ∀ pid dd, ∀ x ∈ logs,
        logKey pid dd (if logKey p.id d x = true then
          ({ id := l.id, project_id := l.project_id,
             standup_date := l.standup_date,
             scheduled_time := p.standup_time,
             status := statusValueFor env d p,
             attendance_count := attendanceCountFor env d p,
             duration_minutes := durationMinutesFor env d p,
             raw_metadata := rawMetadataFor env d p } : DailyStandupLog)
          else x) = logKey pid dd x := by
      intro pid dd x _
      by_cases hx : logKey p.id d x = true
      · obtain ⟨hxp, hxd⟩ := (logKey_iff p.id d x).mp hx
        rw [if_pos hx]
        simp [logKey, hxp, hxd, hlpid, hldate]
      · rw [if_neg hx]
    refine ⟨⟨hlpid, hldate, rfl, rfl, rfl, rfl, rfl⟩, ?_, ?_, ?_⟩
    · rw [filter_map_pointwise _ _ _ (hpoint p.id d), hf]
      simp [hlkey]
    · intro pid dd hne
      rw [filter_map_pointwise _ _ _ (hpoint pid dd)]
      apply map_id_of
      intro x hx
      have hxk := (List.mem_filter.mp hx).2
      obtain ⟨hxp, hxd⟩ := (logKey_iff pid dd x).mp hxk
      have hxno : logKey p.id d x = false := by
        rw [← Bool.not_eq_true]
        intro hcon
        obtain ⟨hxp2, hxd2⟩ := (logKey_iff p.id d x).mp hcon
        exact hne ⟨by rw [← hxp, hxp2], by rw [← hxd, hxd2]⟩
      rw [if_neg (by simp [hxno])]
    · simp [List.length_map]
  · rw [hf] at h
    simp [scalarOneOrNone] at h

lemma keyCount_eq_filter_length (logs : List DailyStandupLog) (pid d : Int) :
    keyCount logs pid d = (logs.filter (logKey pid d)).length :=
  List.countP_eq_length_filter _ _

lemma parseStatus_value (st : DailyStandupStatus) :
    parseStatus st.value = some st := by
  cases st <;> rfl

lemma model_validate_some (x : DailyStandupLog) (r : DailyStandupLogRead)
    (h : DailyStandupLogRead.model_validate x = some r) :
    parseStatus x.status = some r.status := by
  unfold DailyStandupLogRead.model_validate at h
  cases hp : parseStatus x.status with
  | none => rw [hp] at h; simp at h
  | some st =>
    rw [hp] at h
    simp only [Option.map_some', Option.some.injEq] at h
    rw [← h]

lemma validateEntries_length (entries : List DailyStandupLog)
    (rs : List DailyStandupLogRead) (h : validateEntries entries = some rs) :
    rs.length = entries.length := by
  induction entries generalizing rs with
  | nil =>
    unfold validateEntries at h
    simp only [Option.some.injEq] at h
    rw [← h]
    rfl
  | cons x xs ih =>
    unfold validateEntries at h
    cases hv : DailyStandupLogRead.model_validate x with
    | none => rw [hv] at h; simp at h
    | some r =>
      rw [hv] at h
      cases hrest : validateEntries xs with
      | none => rw [hrest] at h; simp at h
      | some rs2 =>
        rw [hrest] at h
        simp only [Option.some.injEq] at h
        rw [← h, List.length_cons, ih rs2 hrest, List.length_cons]

lemma validateEntries_spec (entries : List DailyStandupLog)
    (h : ∀ x ∈ entries, ∃ st, x.status = DailyStandupStatus.value st) :
    ∃ rs, validateEntries entries = some rs ∧
      ∀ r ∈ rs, ∃ x ∈ entries, DailyStandupLogRead.model_validate x = some r := by
  induction entries with
  | nil => exact ⟨[], rfl, by simp⟩
  | cons x xs ih =>
    obtain ⟨st, hst⟩ := h x (List.mem_cons_self x xs)
    have hsome : (parseStatus x.status).isSome := by
      rw [hst, parseStatus_value]; rfl
    obtain ⟨rs, hrs, hmem⟩ := ih (fun y hy => h y (List.mem_cons_of_mem x hy))
    cases hv : DailyStandupLogRead.model_validate x with
    | none =>
      exfalso
      unfold DailyStandupLogRead.model_validate at hv
      rw [Option.map_eq_none'] at hv
      rw [hv] at hsome
      simp at hsome
    | some r =>
      refine ⟨r :: rs, ?_, ?_⟩
      · unfold validateEntries
        rw [hv, hrs]
      · intro r2 hr2
        rcases List.mem_cons.mp hr2 with hr2 | hr2
        · exact ⟨x, List.mem_cons_self x xs, hr2 ▸ hv⟩
        · obtain ⟨y, hy, hyv⟩ := hmem r2 hr2
          exact ⟨y, List.mem_cons_of_mem x hy, hyv⟩

lemma runLoop_acc_length (env : ProviderEnv) (d : Int) (ps : List Project) :
    ∀ (logs : List DailyStandupLog) (nid : Int)
      (acc logs2 : List DailyStandupLog) (nid2 : Int)
      (acc2 : List DailyStandupLog),
      runLoop env d ps logs nid acc = .ok (logs2, nid2, acc2) →
      acc2.length = acc.length + ps.length := by
  induction ps with
  | nil =>
    intro logs nid acc logs2 nid2 acc2 h
    unfold runLoop at h
    simp only [Except.ok.injEq, Prod.mk.injEq] at h
    rw [← h.2.2]
    rfl
  | cons p ps ih =>
    intro logs nid acc logs2 nid2 acc2 h
    unfold runLoop at h
    cases hstep : runStep env d logs nid p with
    | error er => rw [hstep] at h; simp at h
    | ok out =>
      obtain ⟨logsA, nidA, entry⟩ := out
      rw [hstep] at h
      have := ih logsA nidA (acc ++ [entry]) logs2 nid2 acc2 h
      rw [this, List.length_append]
      simp
      omega

lemma runLoop_spec (env : ProviderEnv) (d : Int) :
    ∀ (ps : List Project) (logs : List DailyStandupLog) (nid : Int)
      (acc : List DailyStandupLog), UniqueLogs logs →
    ∃ logs2 nid2 acc2,
      runLoop env d ps logs nid acc = .ok (logs2, nid2, acc2) ∧
      UniqueLogs logs2 ∧
      (∀ x ∈ acc2, x ∈ acc ∨ ∃ p ∈ ps, EntryFor env d p x) ∧
      (∀ pid dd, logs.filter (logKey pid dd) ≠ [] →
        logs2.filter (logKey pid dd) ≠ []) ∧
      (∀ p ∈ ps, keyCount logs2 p.id d = 1) ∧
      ((∀ p ∈ ps, logs.filter (logKey p.id d) ≠ []) →
        logs2.length = logs.length) ∧
      (∀ pid dd, (∀ p ∈ ps, p.id ≠ pid) →
        logs2.filter (logKey pid dd) = logs.filter (logKey pid dd)) ∧
      ((ps.map (fun p => p.id)).Nodup → ∀ p ∈ ps,
        ∃ x, logs2.filter (logKey p.id d) = [x] ∧ EntryFor env d p x) := by
  intro ps
  induction ps with
  | nil =>
    intro logs nid acc hU
    refine ⟨logs, nid, acc, rfl, hU, ?_, ?_, ?_, ?_, ?_, ?_⟩
    · intro x hx; exact Or.inl hx
    · intro pid dd hne; exact hne
    · intro p hp; simp at hp
    · intro _; rfl
    · intro pid dd _; rfl
    · intro _ p hp; simp at hp
  | cons p ps ih =>
    intro logs nid acc hU
    obtain ⟨⟨logsA, nidA, entry⟩, hstep⟩ :=
      runStep_ok_of_le_one env d logs nid p (hU p.id d)
    obtain ⟨hEntry, hown, hother, hlen⟩ :=
      runStep_spec env d logs nid p logsA nidA entry hstep
    have hpres : ∀ pid dd, logs.filter (logKey pid dd) ≠ [] →
        logsA.filter (logKey pid dd) ≠ [] := by
      intro pid dd hne
      by_cases hk : pid = p.id ∧ dd = d
      · obtain ⟨h1, h2⟩ := hk
        subst h1; subst h2
        rw [hown]
        simp
      · rw [hother pid dd hk]
        exact hne
    have hUA : UniqueLogs logsA := by
      intro pid dd
      by_cases hk : pid = p.id ∧ dd = d
      · obtain ⟨h1, h2⟩ := hk
        subst h1; subst h2
        rw [keyCount_eq_filter_length, hown]
        simp
      · rw [keyCount_eq_filter_length, hother pid dd hk,
          ← keyCount_eq_filter_length]
        exact hU pid dd
    obtain ⟨logs2, nid2, acc2, hloop, hU2, hmem2, hne2, hkey2, hstable2,
      hframe2, hnodup2⟩ := ih logsA nidA (acc ++ [entry]) hUA
    have hloopFull : runLoop env d (p :: ps) logs nid acc =
        .ok (logs2, nid2, acc2) := by
      unfold runLoop
      rw [hstep]
      exact hloop
    refine ⟨logs2, nid2, acc2, hloopFull, hU2, ?_, ?_, ?_, ?_, ?_, ?_⟩
    · intro x hx
      rcases hmem2 x hx with hx2 | ⟨q, hq, hEq⟩
      · rcases List.mem_append.mp hx2 with hx3 | hx3
        · exact Or.inl hx3
        · simp only [List.mem_singleton] at hx3
          exact Or.inr ⟨p, List.mem_cons_self p ps, hx3 ▸ hEntry⟩
      · exact Or.inr ⟨q, List.mem_cons_of_mem p hq, hEq⟩
    · intro pid dd hne
      exact hne2 pid dd (hpres pid dd hne)
    · intro q hq
      rcases List.mem_cons.mp hq with hq | hq
      · subst hq
        have h1 : logsA.filter (logKey q.id d) ≠ [] := by
          rw [hown]; simp
        have h2 := hne2 q.id d h1
        have h3 : 1 ≤ keyCount logs2 q.id d := by
          rw [keyCount_eq_filter_length]
          exact Nat.one_le_iff_ne_zero.mpr
            (fun hz => h2 (List.length_eq_zero.mp hz))
        exact Nat.le_antisymm (hU2 q.id d) h3 |>.symm ▸ rfl
      · exact hkey2 q hq
    · intro hall
      have hlenA : logsA.length = logs.length := by
        rw [hlen, if_neg (hall p (List.mem_cons_self p ps))]
        omega
      have hallA : ∀ q ∈ ps, logsA.filter (logKey q.id d) ≠ [] :=
        fun q hq => hpres q.id d (hall q (List.mem_cons_of_mem p hq))
      rw [hstable2 hallA, hlenA]
    · intro pid dd hnone
      have hpne : ¬(pid = p.id ∧ dd = d) := by
        intro ⟨h1, _⟩
        exact hnone p (List.mem_cons_self p ps) h1.symm
      rw [hframe2 pid dd (fun q hq => hnone q (List.mem_cons_of_mem p hq)),
        hother pid dd hpne]
    · intro hnd q hq
      simp only [List.map_cons, List.nodup_cons] at hnd
      rcases List.mem_cons.mp hq with hq | hq
      · subst hq
        have hframe : logs2.filter (logKey q.id d) =
            logsA.filter (logKey q.id d) := by
          apply hframe2
          intro r hr hrid
          exact hnd.1 (List.mem_map.mpr ⟨r, hr, hrid⟩)
        rw [hframe, hown]
        exact ⟨entry, rfl, hEntry⟩
      · exact hnodup2 hnd.2 q hq

lemma entry_status_value (env : ProviderEnv) (d : Int) (p : Project)
    (x : DailyStandupLog) (h : EntryFor env d p x) :
    ∃ st, x.status = DailyStandupStatus.value st :=
  ⟨StandupEvaluator.evaluate (resolveSnapshot env p d), h.2.2.1⟩

lemma run_eval (env : ProviderEnv) (db : DB) (d : Int)
    (logs2 : List DailyStandupLog) (nid2 : Int)
    (acc2 : List DailyStandupLog) (reads : List DailyStandupLogRead)
    (hloop : runLoop env d (db.projects.filter (fun p => p.is_active))
      db.logs db.next_log_id [] = .ok (logs2, nid2, acc2))
    (hval : validateEntries acc2 = some reads) :
    run_daily_standup_check env db d =
      .ok ({ db with logs := logs2, next_log_id := nid2 },
        { standup_date := d,
          total_projects_evaluated :=
            (db.projects.filter (fun p => p.is_active)).length,
          logs_created := reads.length,
          entries := reads }) := by
  unfold run_daily_standup_check
  simp only [hloop, hval]

lemma run_ok_inv (env : ProviderEnv) (db : DB) (d : Int) (db2 : DB)
    (s : DailyCheckSummary)
    (h : run_daily_standup_check env db d = .ok (db2, s)) :
    ∃ logs2 nid2 acc2 reads,
      runLoop env d (db.projects.filter (fun p => p.is_active))
        db.logs db.next_log_id [] = .ok (logs2, nid2, acc2) ∧
      validateEntries acc2 = some reads ∧
      s.logs_created = reads.length ∧
      s.total_projects_evaluated =
        (db.projects.filter (fun p => p.is_active)).length ∧
      s.entries = reads := by
  unfold run_daily_standup_check at h
  cases hloop : runLoop env d (db.projects.filter (fun p => p.is_active))
      db.logs db.next_log_id [] with
  | error er =>
    simp only [hloop] at h
    exact absurd h (by simp)
  | ok out =>
    obtain ⟨logs2, nid2, acc2⟩ := out
    simp only [hloop] at h
    cases hval : validateEntries acc2 with
    | none =>
      simp only [hval] at h
      exact absurd h (by simp)
    | some reads =>
      simp only [hval, Except.ok.injEq, Prod.mk.injEq] at h
      obtain ⟨-, hs⟩ := h
      rw [← hs]
      exact ⟨logs2, nid2, acc2, reads, rfl, hval, rfl, rfl, rfl⟩

/-- C3: the daily check performs an idempotent upsert.  From any log table
satisfying the one-row-per-(project, date) invariant, a run succeeds,
preserves the invariant, and leaves exactly one row per (active project,
date); a second run for the same date (possibly with different provider
results) finds each existing row, updates it in place, and never changes the
row count. -/
theorem daily_check_idempotent_upsert (env1 env2 : ProviderEnv) (db : DB)
    (d : Int) (hU : UniqueLogs db.logs) :
    ∃ db1 s1 db2 s2,
      run_daily_standup_check env1 db d = .ok (db1, s1) ∧
      run_daily_standup_check env2 db1 d = .ok (db2, s2) ∧
      db1.projects = db.projects ∧ db2.projects = db.projects ∧
      UniqueLogs db1.logs ∧ UniqueLogs db2.logs ∧
      (∀ p ∈ db.projects.filter (fun q => q.is_active),
        keyCount db1.logs p.id d = 1 ∧ keyCount db2.logs p.id d = 1) ∧
      db2.logs.length = db1.logs.length := by
  obtain ⟨logs2, nid2, acc2, hloop1, hU1, hmem1, hne1, hkey1, hstable1,
    hframe1, hnodup1⟩ :=
    runLoop_spec env1 d (db.projects.filter (fun p => p.is_active))
      db.logs db.next_log_id [] hU
  have hv1 : ∀ x ∈ acc2, ∃ st, x.status = DailyStandupStatus.value st := by
    intro x hx
    rcases hmem1 x hx with hx2 | ⟨p, -, hE⟩
    · simp at hx2
    · exact entry_status_value env1 d p x hE
  obtain ⟨reads1, hval1, hvm1⟩ := validateEntries_spec acc2 hv1
  have hrun1 := run_eval env1 db d logs2 nid2 acc2 reads1 hloop1 hval1
  obtain ⟨logs3, nid3, acc3, hloop2, hU2, hmem2, hne2, hkey2, hstable2,
    hframe2, hnodup2⟩ :=
    runLoop_spec env2 d (db.projects.filter (fun p => p.is_active))
      logs2 nid2 [] hU1
  have hv2 : ∀ x ∈ acc3, ∃ st, x.status = DailyStandupStatus.value st := by
    intro x hx
    rcases hmem2 x hx with hx2 | ⟨p, -, hE⟩
    · simp at hx2
    · exact entry_status_value env2 d p x hE
  obtain ⟨reads2, hval2, hvm2⟩ := validateEntries_spec acc3 hv2
  have hrun2 := run_eval env2 { db with logs := logs2, next_log_id := nid2 }
    d logs3 nid3 acc3 reads2 hloop2 hval2
  refine ⟨_, _, _, _, hrun1, hrun2, rfl, rfl, hU1, hU2, ?_, ?_⟩
  · intro p hp
    refine ⟨hkey1 p hp, hkey2 p hp⟩
  · apply hstable2
    intro p hp
    have h1 := hkey1 p hp
    rw [keyCount_eq_filter_length] at h1
    intro hnil
    rw [hnil] at h1
    simp at h1

/-- C4: on every per-project upsert of the daily check, whether the row is
created or pre-existing, the persisted row for (project id, date) carries
exactly the values of this run: status, attendance_count, duration_minutes,
serialized raw payload, and scheduled_time refreshed from the project, with
the identity fields project_id and standup_date equal to the lookup key. -/
theorem daily_check_overwrites_fields (env : ProviderEnv) (db : DB) (d : Int)
    (hU : UniqueLogs db.logs)
    (hN : ((db.projects.filter (fun p => p.is_active)).map
      (fun p => p.id)).Nodup) :
    ∃ db2 s, run_daily_standup_check env db d = .ok (db2, s) ∧
      ∀ p ∈ db.projects.filter (fun q => q.is_active),
        ∃ x, db2.logs.filter (logKey p.id d) = [x] ∧ EntryFor env d p x := by
  obtain ⟨logs2, nid2, acc2, hloop, hU1, hmem1, hne1, hkey1, hstable1,
    hframe1, hnodup1⟩ :=
    runLoop_spec env d (db.projects.filter (fun p => p.is_active))
      db.logs db.next_log_id [] hU
  have hv : ∀ x ∈ acc2, ∃ st, x.status = DailyStandupStatus.value st := by
    intro x hx
    rcases hmem1 x hx with hx2 | ⟨p, -, hE⟩
    · simp at hx2
    · exact entry_status_value env d p x hE
  obtain ⟨reads, hval, hvm⟩ := validateEntries_spec acc2 hv
  exact ⟨_, _, run_eval env db d logs2 nid2 acc2 reads hloop hval,
    hnodup1 hN⟩

/-- C5: with missing provider credentials every active project is evaluated
with a null snapshot, so every entry of the run reports NO_DATA; and a
provider failure while resolving the occurrence or the attendance of one
project yields a null snapshot for that project only: the batch still
produces one entry per active project and the run never propagates a
provider error (it returns a summary, not an exception). -/
theorem daily_check_provider_degradation (env : ProviderEnv) (db : DB)
    (d : Int) (hU : UniqueLogs db.logs) :
    ∃ db2 s, run_daily_standup_check env db d = .ok (db2, s) ∧
      s.entries.length =
        (db.projects.filter (fun p => p.is_active)).length ∧
      (env.credentials_present = false →
        (∀ p : Project, resolveSnapshot env p d = none) ∧
        ∀ r ∈ s.entries, r.status = DailyStandupStatus.NO_DATA) ∧
      (∀ p : Project,
        ((∃ er, env.resolveOccurrence p.meeting_id d = .error er) ∨
         (∃ er, env.resolveAttendance p.meeting_id = .error er)) →
        resolveSnapshot env p d = none) := by
  obtain ⟨logs2, nid2, acc2, hloop, hU1, hmem1, hne1, hkey1, hstable1,
    hframe1, hnodup1⟩ :=
    runLoop_spec env d (db.projects.filter (fun p => p.is_active))
      db.logs db.next_log_id [] hU
  have hv : ∀ x ∈ acc2, ∃ st, x.status = DailyStandupStatus.value st := by
    intro x hx
    rcases hmem1 x hx with hx2 | ⟨p, -, hE⟩
    · simp at hx2
    · exact entry_status_value env d p x hE
  obtain ⟨reads, hval, hvm⟩ := validateEntries_spec acc2 hv
  have hacclen := runLoop_acc_length env d
    (db.projects.filter (fun p => p.is_active))
    db.logs db.next_log_id [] logs2 nid2 acc2 hloop
  refine ⟨_, _, run_eval env db d logs2 nid2 acc2 reads hloop hval,
    ?_, ?_, ?_⟩
  · show reads.length = _
    rw [validateEntries_length acc2 reads hval, hacclen]
    simp
  · intro hcred
    have hnone : ∀ p : Project, resolveSnapshot env p d = none := by
      intro p
      unfold resolveSnapshot ProviderEnv.usable
      rw [hcred]
      simp
    refine ⟨hnone, ?_⟩
    intro r hr
    obtain ⟨x, hx, hxv⟩ := hvm r hr
    rcases hmem1 x hx with hx2 | ⟨p, -, hE⟩
    · simp at hx2
    · have hst : x.status = statusValueFor env d p := hE.2.2.1
      have hsv : statusValueFor env d p =
          DailyStandupStatus.value .NO_DATA := by
        unfold statusValueFor
        rw [hnone p]
        rfl
      have hp := model_validate_some x r hxv
      rw [hst, hsv, parseStatus_value] at hp
      exact (Option.some.injEq _ _ ▸ hp).symm
  · intro p hfail
    unfold resolveSnapshot
    cases husable : env.usable with
    | false => simp
    | true =>
      simp only [if_true]
      rcases hfail with ⟨er, hocc⟩ | ⟨er, hatt⟩
      · rw [hocc]
      · cases hocc : env.resolveOccurrence p.meeting_id d with
        | error er2 => rfl
        | ok occurrence => rw [hatt]

/-- C9: in the summary of every successful daily check run, logs_created
equals total_projects_evaluated, the number of active projects: the run
counts one entry per active project whether the row was created or merely
updated. -/
theorem daily_check_logs_created_counts_projects (env : ProviderEnv)
    (db : DB) (d : Int) (db2 : DB) (s : DailyCheckSummary)
    (h : run_daily_standup_check env db d = .ok (db2, s)) :
    s.logs_created = s.total_projects_evaluated ∧
    s.total_projects_evaluated =
      (db.projects.filter (fun p => p.is_active)).length := by
  obtain ⟨logs2, nid2, acc2, reads, hloop, hval, hlc, htp, -⟩ :=
    run_ok_inv env db d db2 s h
  have h1 := runLoop_acc_length env d
    (db.projects.filter (fun p => p.is_active))
    db.logs db.next_log_id [] logs2 nid2 acc2 hloop
  have h2 := validateEntries_length acc2 reads hval
  rw [hlc, htp, h2, h1]
  simp

/-- A concrete active project used to instantiate the theorems. -/
def exProject : Project :=
  { id := 1, project_key := "OCS", name := "OCS Platform",
    meeting_id := "m-1", standup_time := 570, is_active := true }

/-- A concrete database with one active project and no logs. -/
def exDb : DB := { projects := [exProject], logs := [], next_log_id := 1 }

/-- A configured provider environment with well-behaved oracles. -/
def exEnv : ProviderEnv :=
  { credentials_present := true, client_ok := true,
    resolveOccurrence := fun mid _ => .ok
      { meeting_id := mid, is_cancelled := false,
        raw := some [("id", RawVal.str mid)] },
    resolveAttendance := fun mid => .ok
      { meeting_id := mid, non_organizer_count := 3, duration_minutes := 10,
        has_data := true, raw := some [("value", RawVal.num 1)] } }

/-- A provider environment with missing credentials (degraded mode). -/
def exEnvNoCred : ProviderEnv :=
  { credentials_present := false, client_ok := true,
    resolveOccurrence := fun mid _ => .ok { meeting_id := mid },
    resolveAttendance := fun mid => .ok
      { meeting_id := mid, non_organizer_count := 0, duration_minutes := 0,
        has_data := false } }

/-- A concrete log row builder for the aggregation examples. -/
def exLog (i dd : Int) (st : String) : DailyStandupLog :=
  { id := i, project_id := 1, standup_date := dd, scheduled_time := 570,
    status := st, attendance_count := 3, duration_minutes := 10,
    raw_metadata := none }

/-- A concrete database holding the spec scenario: statuses
[HAPPENED, MISSED, HAPPENED, ERROR, NO_DATA] over five days. -/
def exDb2 : DB :=
  { projects := [exProject],
    logs := [exLog 1 0 "HAPPENED", exLog 2 1 "MISSED", exLog 3 2 "HAPPENED",
             exLog 4 3 "ERROR", exLog 5 4 "NO_DATA"],
    next_log_id := 6 }

/-- The summary the aggregators produce for exDb2 over [0, 4]. -/
def exSum : WeeklyProjectSummary :=
  { project_id := 1, project_key := "OCS", project_name := "OCS Platform",
    start_date := 0, end_date := 4, total_days := 5, happened_count := 2,
    missed_count := 1, cancelled_count := 0, no_data_count := 1,
    error_count := 1, compliance_pct := 40 }

lemma exDb_unique : UniqueLogs exDb.logs := by
  intro pid dd
  simp [keyCount, exDb]

lemma exDb2_unique : UniqueLogs exDb2.logs := by
  intro pid dd
  simp only [keyCount, exDb2, exLog, logKey, List.countP_cons,
    List.countP_nil, Bool.and_eq_true, beq_iff_eq]
  split_ifs <;> omega

theorem daily_check_idempotent_upsert_witness :
    UniqueLogs exDb.logs ∧
    (∃ db1 s1 db2 s2,
      run_daily_standup_check exEnv exDb 0 = .ok (db1, s1) ∧
      run_daily_standup_check exEnvNoCred db1 0 = .ok (db2, s2) ∧
      keyCount db1.logs exProject.id 0 = 1 ∧
      keyCount db2.logs exProject.id 0 = 1 ∧
      db2.logs.length = db1.logs.length) := by
  obtain ⟨db1, s1, db2, s2, h1, h2, -, -, -, -, hkeys, hlen⟩ :=
    daily_check_idempotent_upsert exEnv exEnvNoCred exDb 0 exDb_unique
  obtain ⟨hk1, hk2⟩ := hkeys exProject (by decide)
  exact ⟨exDb_unique, db1, s1, db2, s2, h1, h2, hk1, hk2, hlen⟩

theorem daily_check_overwrites_fields_witness :
    UniqueLogs exDb.logs ∧
    ((exDb.projects.filter (fun p => p.is_active)).map
      (fun p => p.id)).Nodup ∧
    (∃ db2 s, run_daily_standup_check exEnv exDb 0 = .ok (db2, s) ∧
      ∃ x, db2.logs.filter (logKey exProject.id 0) = [x] ∧
        EntryFor exEnv 0 exProject x) := by
  have hN : ((exDb.projects.filter (fun p => p.is_active)).map
      (fun p => p.id)).Nodup := by decide
  obtain ⟨db2, s, hrun, hall⟩ :=
    daily_check_overwrites_fields exEnv exDb 0 exDb_unique hN
  exact ⟨exDb_unique, hN, db2, s, hrun, hall exProject (by decide)⟩

theorem daily_check_provider_degradation_witness :
    UniqueLogs exDb.logs ∧
    (∃ db2 s, run_daily_standup_check exEnvNoCred exDb 0 = .ok (db2, s) ∧
      s.entries.length = 1 ∧
      ∀ r ∈ s.entries, r.status = DailyStandupStatus.NO_DATA) := by
  obtain ⟨db2, s, hrun, hlen, hcred, -⟩ :=
    daily_check_provider_degradation exEnvNoCred exDb 0 exDb_unique
  refine ⟨exDb_unique, db2, s, hrun, ?_, (hcred rfl).2⟩
  rw [hlen]
  decide

theorem summary_numbers_correct_witness :
    ((exDb2.projects.map (fun p => p.id)).Nodup) ∧
    compute_project_summary exDb2 1 0 4 = .ok exSum ∧
    SummaryCorrect exDb2 0 4 exSum ∧
    exSum.total_days = 5 ∧ exSum.happened_count = 2 ∧
    exSum.compliance_pct = 40 := by
  refine ⟨by decide, by rfl, ?_, by decide, by decide, by decide⟩
  exact (summary_numbers_correct exDb2 0 4 1 (by decide)).2 exSum (by rfl)

theorem weekly_omits_empty_project_summary_keeps_witness :
    ((exDb.projects.map (fun p => p.id)).Nodup) ∧
    (0 : Int) ≤ 4 ∧ exProject ∈ exDb.projects ∧ exProject.id = 1 ∧
    rangeLogsFor exDb 0 4 1 = [] ∧
    (∃ sum, compute_project_summary exDb 1 0 4 = .ok sum ∧
      sum.total_days = 0 ∧ sum.happened_count = 0 ∧ sum.missed_count = 0 ∧
      sum.cancelled_count = 0 ∧ sum.no_data_count = 0 ∧
      sum.error_count = 0) := by
  refine ⟨by decide, by decide, by decide, by decide, by decide, ?_⟩
  exact (weekly_omits_empty_project_summary_keeps exDb 0 4 1
    (by decide)).2.2 (by decide) exProject (by decide) (by decide) (by decide)

theorem summary_error_contract_witness :
    ((exDb.projects.map (fun p => p.id)).Nodup) ∧
    (2 : Int) < 5 ∧
    compute_weekly_summary exDb 5 2 = .error .invalidRange ∧
    compute_project_summary exDb 1 5 2 = .error .invalidRange ∧
    compute_project_summary exDb 99 2 5 = .error (.notFound 99) ∧
    (∃ res, compute_weekly_summary exDb 2 5 = .ok res) := by
  have hN : ((exDb.projects.map (fun p => p.id)).Nodup) := by decide
  obtain ⟨hw, -, hp, -, -⟩ := summary_error_contract exDb 1 5 2 hN
  obtain ⟨-, hwk, -, hnf, -⟩ := summary_error_contract exDb 99 2 5 hN
  exact ⟨hN, by decide, hw (by decide), hp (by decide),
    hnf (by decide) (by decide), hwk (by decide)⟩

theorem daily_check_logs_created_counts_projects_witness :
    ∃ db2 s, run_daily_standup_check exEnvNoCred exDb 0 = .ok (db2, s) ∧
      s.logs_created = s.total_projects_evaluated ∧
      s.total_projects_evaluated = 1 := by
  obtain ⟨db2, s, hrun, -, -, -⟩ :=
    daily_check_provider_degradation exEnvNoCred exDb 0 exDb_unique
  obtain ⟨h1, h2⟩ :=
    daily_check_logs_created_counts_projects exEnvNoCred exDb 0 db2 s hrun
  refine ⟨db2, s, hrun, h1, ?_⟩
  rw [h2]
  decide

theorem summary_counts_partition_witness :
    compute_project_summary exDb2 1 0 4 = .ok exSum ∧
    exSum.happened_count + exSum.missed_count + exSum.cancelled_count +
      exSum.no_data_count + exSum.error_count = exSum.total_days := by
  exact ⟨by rfl, (summary_counts_partition exDb2 0 4 1).2 exSum (by rfl)⟩
